import Mathlib

set_option autoImplicit false

namespace ColorTools

/-- A layer descriptor: a stable registration `index` and a `name`.  The
layer's colour transform (`apply(color, timestamp, x, y)`) is external to the
core (`layers.py` is outside the verified source); it is passed around
explicitly as a function parameter `applyFn` wherever a store folds layers
into a colour. -/
structure Layer where
  index : Nat
  name : String
  deriving DecidableEq

/-- Modelled from the spec: the repository's bounded FIFO queue ADT
(`data_structures/queue_adt.py`), which is not part of the verified source
tree.  Per the spec it is a fixed-capacity circular queue consumed strictly
in FIFO order whose capacity exhaustion is a silent no-op, not a resize.
`items` lists the queued elements head (front) first. -/
structure CircularQueue (α : Type) where
  max_capacity : Nat
  items : List α
  deriving DecidableEq

namespace CircularQueue

variable {α : Type}

def length (q : CircularQueue α) : Nat := q.items.length

def is_empty (q : CircularQueue α) : Bool := q.items.isEmpty

def is_full (q : CircularQueue α) : Bool := q.max_capacity ≤ q.items.length

def append (q : CircularQueue α) (x : α) : CircularQueue α :=
  if q.items.length < q.max_capacity then ⟨q.max_capacity, q.items ++ [x]⟩ else q

def serve (q : CircularQueue α) : Option (α × CircularQueue α) :=
  match q.items with
  | [] => none
  | x :: rest => some (x, ⟨q.max_capacity, rest⟩)

end CircularQueue

/-- Modelled from the spec: the repository's bounded stack ADT
(`data_structures/stack_adt.py`), which is not part of the verified source
tree.  Per the spec it is a fixed-capacity stack whose capacity exhaustion is
a silent no-op.  `items` lists the stacked elements top first. -/
structure ArrayStack (α : Type) where
  max_capacity : Nat
  items : List α
  deriving DecidableEq

namespace ArrayStack

variable {α : Type}

def length (st : ArrayStack α) : Nat := st.items.length

def is_empty (st : ArrayStack α) : Bool := st.items.isEmpty

def is_full (st : ArrayStack α) : Bool := st.max_capacity ≤ st.items.length

def push (st : ArrayStack α) (x : α) : ArrayStack α :=
  if st.items.length < st.max_capacity then ⟨st.max_capacity, x :: st.items⟩ else st

def pop (st : ArrayStack α) : Option (α × ArrayStack α) :=
  match st.items with
  | [] => none
  | x :: rest => some (x, ⟨st.max_capacity, rest⟩)

def clear (st : ArrayStack α) : ArrayStack α := ⟨st.max_capacity, []⟩

end ArrayStack

/-- `SetLayerStore`: a single optional layer plus an inversion flag
(`layer_store.py`, lines 49-177). -/
structure SetLayerStore where
  layer : Option Layer
  special_effect : Bool
  deriving DecidableEq

namespace SetLayerStore

/-- `SetLayerStore.__init__`: empty layer, special effect off. -/
def init : SetLayerStore := ⟨none, false⟩

/-- `SetLayerStore.add`: `if self.layer != layer: self.layer = layer; return True`
(`None != layer` is true in Python, so the comparison is against `some layer`). -/
def add (s : SetLayerStore) (layer : Layer) : SetLayerStore × Bool :=
  if s.layer ≠ some layer then ({ s with layer := some layer }, true) else (s, false)

/-- `SetLayerStore.erase`: clears the stored layer (whatever the argument),
returning whether one was present. -/
def erase (s : SetLayerStore) (_layer : Layer) : SetLayerStore × Bool :=
  match s.layer with
  | none => (s, false)
  | some _ => ({ s with layer := none }, true)

/-- `SetLayerStore.special`: flips the `special_effect` flag. -/
def special (s : SetLayerStore) : SetLayerStore :=
  if s.special_effect then { s with special_effect := false }
  else { s with special_effect := true }

end SetLayerStore

/-- Claim C8: in `SetLayerStore` the two state fields are mutated
independently — `add` and `erase` leave the `special_effect` flag unchanged
for every store state and layer, and `special` leaves the stored layer
unchanged. -/
theorem claim_C8_set_store_frame (s : SetLayerStore) (l : Layer) :
    ((s.add l).1.special_effect = s.special_effect) ∧
    ((s.erase l).1.special_effect = s.special_effect) ∧
    (s.special.layer = s.layer) := by
  refine ⟨?_, ?_, ?_⟩
  · unfold SetLayerStore.add
    split <;> rfl
  · unfold SetLayerStore.erase
    cases s.layer <;> rfl
  · unfold SetLayerStore.special
    split <;> rfl

/-- The layer registry (`layer_util.get_layers()`): a fixed-size ordered
sequence of layer slots in which trailing empty (`none`) slots denote unused
entries.  The registry itself lives outside the verified source; its shape is
taken from the spec's external-interface section. -/
abbrev Registry := List (Option Layer)

/-- `AdditiveLayerStore`: a bounded FIFO queue of layers
(`layer_store.py`, lines 180-325).  The Python object also stores
`self.capacity = len(get_layers()) * 100`, which is used only as the queue's
capacity and is therefore represented by `layers.max_capacity`. -/
structure AdditiveLayerStore where
  layers : CircularQueue Layer
  deriving DecidableEq

namespace AdditiveLayerStore

/-- `AdditiveLayerStore.__init__`:
`self.capacity = len(get_layers()) * 100; self.layers = CircularQueue(self.capacity)`. -/
def init (reg : Registry) : AdditiveLayerStore :=
  ⟨⟨reg.length * 100, []⟩⟩

/-- `AdditiveLayerStore.add`: refuse when the queue is full, else append. -/
def add (s : AdditiveLayerStore) (layer : Layer) : AdditiveLayerStore × Bool :=
  if s.layers.is_full then (s, false)
  else (⟨s.layers.append layer⟩, true)

/-- `AdditiveLayerStore.erase`:
`if not self.layers.is_empty() and self.layers.serve() != layer: return True`
`return False`.
The short-circuit `and` means `serve()` runs (and removes the head) exactly
when the queue is non-empty, and the returned boolean is the comparison of
the served head against the argument. -/
def erase (s : AdditiveLayerStore) (layer : Layer) : AdditiveLayerStore × Bool :=
  match s.layers.serve with
  | none => (s, false)
  | some (served, rest) => (⟨rest⟩, decide (served ≠ layer))

/-- The `for i in range(len(self.layers))` body of
`AdditiveLayerStore.get_color`: serve a layer, apply it, append it back. -/
def getColorLoop {C : Type} (applyFn : Layer → C → Nat → Nat → Nat → C)
    (timestamp x y : Nat) :
    Nat → CircularQueue Layer → C → CircularQueue Layer × C
  | 0, q, color => (q, color)
  | Nat.succ n, q, color =>
    match q.serve with
    | none => (q, color)
    | some (item, q1) =>
      getColorLoop applyFn timestamp x y n (q1.append item)
        (applyFn item color timestamp x y)

/-- `AdditiveLayerStore.get_color`: folds `apply` over the queued layers in
head-to-tail order by rotating the queue; returns the mutated store together
with the colour. -/
def get_color {C : Type} (applyFn : Layer → C → Nat → Nat → Nat → C)
    (s : AdditiveLayerStore) (start : C) (timestamp x y : Nat) :
    AdditiveLayerStore × C :=
  if s.layers.is_empty then (s, start)
  else
    let r := getColorLoop applyFn timestamp x y s.layers.length s.layers start
    (⟨r.1⟩, r.2)

/-- First `while` loop of `AdditiveLayerStore.special`:
`while not self.layers.is_empty(): stack.push(self.layers.serve())`. -/
def drainToStack : CircularQueue Layer → ArrayStack Layer →
    CircularQueue Layer × ArrayStack Layer
  | ⟨cap, []⟩, st => (⟨cap, []⟩, st)
  | ⟨cap, x :: rest⟩, st => drainToStack ⟨cap, rest⟩ (st.push x)

/-- Second `while` loop of `AdditiveLayerStore.special`:
`while not stack.is_empty(): self.layers.append(stack.pop())`. -/
def drainToQueue : ArrayStack Layer → CircularQueue Layer →
    ArrayStack Layer × CircularQueue Layer
  | ⟨cap, []⟩, q => (⟨cap, []⟩, q)
  | ⟨cap, x :: rest⟩, q => drainToQueue ⟨cap, rest⟩ (q.append x)

/-- `AdditiveLayerStore.special`: drain the queue into a temporary stack of
capacity `len(self.layers)`, then drain the stack back into the queue. -/
def special (s : AdditiveLayerStore) : AdditiveLayerStore :=
  let stack0 : ArrayStack Layer := ⟨s.layers.length, []⟩
  let r1 := drainToStack s.layers stack0
  let r2 := drainToQueue r1.2 r1.1
  ⟨r2.2⟩

/-- Repeated `add` calls, collecting each boolean result in order. -/
def addAll : AdditiveLayerStore → List Layer → AdditiveLayerStore × List Bool
  | s, [] => (s, [])
  | s, l :: ls =>
    let r := s.add l
    let rest := addAll r.1 ls
    (rest.1, r.2 :: rest.2)

end AdditiveLayerStore

/-- Claim C1 (failing input): on the queue `[black]` with capacity 100,
`erase(black)` does remove the head — the store comes back empty — yet
returns `false` although the queue was non-empty, because the code returns
the comparison `serve() != layer` instead of `true`.  This contradicts the
base-class contract (`layer_store.py` line 37: "Returns true if the
LayerStore was actually changed"): the store was changed. -/
theorem claim_C1_additive_erase_code_bug :
    AdditiveLayerStore.erase ⟨⟨100, [⟨0, "black"⟩]⟩⟩ ⟨0, "black"⟩ =
      (⟨⟨100, []⟩⟩, false) := by
  decide

namespace AdditiveLayerStore

/-- Draining a queue into a stack of sufficient remaining capacity empties the
queue and stacks the elements in reverse (LIFO) order. -/
theorem drainToStack_spec (l : List Layer) :
    ∀ (st : List Layer) (cap scap : Nat), l.length + st.length ≤ scap →
      drainToStack ⟨cap, l⟩ ⟨scap, st⟩ = (⟨cap, []⟩, ⟨scap, l.reverse ++ st⟩) := by
  induction l with
  | nil => intro st cap scap _; simp [drainToStack]
  | cons x rest ih =>
    intro st cap scap h
    have hlt : st.length < scap := by
      simp only [List.length_cons] at h
      omega
    rw [drainToStack, ArrayStack.push, if_pos hlt]
    rw [ih (x :: st) cap scap (by simp at h ⊢; omega)]
    simp

/-- Draining a stack into a queue of sufficient remaining capacity empties the
stack and appends the elements in pop (top-first) order. -/
theorem drainToQueue_spec (st : List Layer) :
    ∀ (q : List Layer) (scap cap : Nat), q.length + st.length ≤ cap →
      drainToQueue ⟨scap, st⟩ ⟨cap, q⟩ = (⟨scap, []⟩, ⟨cap, q ++ st⟩) := by
  induction st with
  | nil => intro q scap cap _; simp [drainToQueue]
  | cons x rest ih =>
    intro q scap cap h
    have hlt : q.length < cap := by
      simp only [List.length_cons] at h
      omega
    rw [drainToQueue, CircularQueue.append, if_pos hlt]
    rw [ih (q ++ [x]) scap cap (by simp at h ⊢; omega)]
    simp

/-- On any store whose queue respects its capacity bound, `special` reverses
the queue contents and keeps the capacity. -/
theorem special_spec (s : AdditiveLayerStore)
    (h : s.layers.items.length ≤ s.layers.max_capacity) :
    s.special = ⟨⟨s.layers.max_capacity, s.layers.items.reverse⟩⟩ := by
  obtain ⟨⟨cap, items⟩⟩ := s
  simp only [special, CircularQueue.length]
  rw [drainToStack_spec items [] cap items.length (by simp)]
  simp only [List.append_nil]
  rw [drainToQueue_spec items.reverse [] items.length cap (by simpa using h)]
  simp

end AdditiveLayerStore

/-- Claim C6: one `special` call reverses the head-to-tail order of the
queued layers, two consecutive `special` calls restore the queue exactly, and
hence `get_color` output on any inputs is identical before and after the
double reversal.  The hypothesis (queue occupancy within capacity) holds for
every reachable store since `add` is capacity-guarded. -/
theorem claim_C6_additive_special_involution (s : AdditiveLayerStore)
    (h : s.layers.items.length ≤ s.layers.max_capacity) :
    (s.special.layers.items = s.layers.items.reverse) ∧
    (s.special.special = s) ∧
    (∀ {C : Type} (applyFn : Layer → C → Nat → Nat → Nat → C)
      (start : C) (timestamp x y : Nat),
      AdditiveLayerStore.get_color applyFn s.special.special start timestamp x y =
        AdditiveLayerStore.get_color applyFn s start timestamp x y) := by
  have h1 := AdditiveLayerStore.special_spec s h
  have h2 : s.special.special = s := by
    rw [h1, AdditiveLayerStore.special_spec ⟨⟨_, _⟩⟩ (by simpa using h)]
    obtain ⟨⟨cap, items⟩⟩ := s
    simp
  refine ⟨by rw [h1], h2, ?_⟩
  intro C applyFn start timestamp x y
  rw [h2]

/-- Claim C6 witness: the two-layer queue `[a, b]` with capacity 100 reverses
to `[b, a]` under `special`, and a second `special` restores the store. -/
theorem claim_C6_witness :
    ((⟨⟨100, [⟨0, "a"⟩, ⟨1, "b"⟩]⟩⟩ : AdditiveLayerStore).special.layers.items =
      [⟨1, "b"⟩, ⟨0, "a"⟩]) ∧
    ((⟨⟨100, [⟨0, "a"⟩, ⟨1, "b"⟩]⟩⟩ : AdditiveLayerStore).special.special =
      ⟨⟨100, [⟨0, "a"⟩, ⟨1, "b"⟩]⟩⟩) := by
  have h := claim_C6_additive_special_involution
    ⟨⟨100, [⟨0, "a"⟩, ⟨1, "b"⟩]⟩⟩ (by decide)
  exact ⟨h.1, h.2.1⟩

namespace AdditiveLayerStore

/-- While the queue stays within capacity, every `add` succeeds, capacity is
preserved, and occupancy grows by one per call. -/
theorem addAll_spec (ls : List Layer) :
    ∀ s : AdditiveLayerStore,
      s.layers.items.length + ls.length ≤ s.layers.max_capacity →
      (s.addAll ls).2 = List.replicate ls.length true ∧
      (s.addAll ls).1.layers.max_capacity = s.layers.max_capacity ∧
      (s.addAll ls).1.layers.items.length = s.layers.items.length + ls.length := by
  induction ls with
  | nil => intro s _; simp [addAll]
  | cons l rest ih =>
    intro s h
    have hlt : s.layers.items.length < s.layers.max_capacity := by
      simp only [List.length_cons] at h
      omega
    have hfull : s.layers.is_full = false := by
      simp [CircularQueue.is_full]
      omega
    rw [addAll, add, hfull]
    simp only [Bool.false_eq_true, if_false]
    have happ : (s.layers.append l).items = s.layers.items ++ [l] := by
      simp [CircularQueue.append, if_pos hlt]
    have hcap : (s.layers.append l).max_capacity = s.layers.max_capacity := by
      simp [CircularQueue.append, if_pos hlt]
    have := ih ⟨s.layers.append l⟩ (by simp [happ, hcap]; simp at h; omega)
    simp only [List.length_cons, List.replicate_succ]
    refine ⟨by simp [this.1], by simp [this.2.1, hcap], ?_⟩
    rw [this.2.2]
    simp [happ]
    omega

end AdditiveLayerStore

/-- Claim C9: the additive store's queue capacity is exactly `100 *
len(get_layers())`, counting every registry slot (used or empty); from an
empty store, that many consecutive `add` calls all return true, and the next
`add` is refused with false, leaving the store unchanged. -/
theorem claim_C9_additive_capacity (reg : Registry) (ls : List Layer)
    (h : ls.length = reg.length * 100) :
    ((AdditiveLayerStore.init reg).layers.max_capacity = reg.length * 100) ∧
    (((AdditiveLayerStore.init reg).addAll ls).2 = List.replicate ls.length true) ∧
    (∀ l : Layer, ((AdditiveLayerStore.init reg).addAll ls).1.add l =
      (((AdditiveLayerStore.init reg).addAll ls).1, false)) := by
  have hspec := AdditiveLayerStore.addAll_spec ls (AdditiveLayerStore.init reg)
    (by simp [AdditiveLayerStore.init, h])
  refine ⟨rfl, hspec.1, ?_⟩
  intro l
  have hlen : ((AdditiveLayerStore.init reg).addAll ls).1.layers.items.length =
      ls.length := by
    have h2 := hspec.2.2
    simpa [AdditiveLayerStore.init] using h2
  have hcap : ((AdditiveLayerStore.init reg).addAll ls).1.layers.max_capacity =
      reg.length * 100 := by
    have h2 := hspec.2.1
    simpa [AdditiveLayerStore.init] using h2
  have hfull : ((AdditiveLayerStore.init reg).addAll ls).1.layers.is_full = true := by
    simp [CircularQueue.is_full, hlen, hcap, h]
  rw [AdditiveLayerStore.add, hfull]
  simp

/-- Claim C9 witness: a one-slot registry holding only an empty slot still
yields capacity 100; from empty, 100 adds all succeed and the 101st fails. -/
theorem claim_C9_witness :
    (((AdditiveLayerStore.init [none]).addAll
        (List.replicate 100 ⟨0, "x"⟩)).2 = List.replicate 100 true) ∧
    ((((AdditiveLayerStore.init [none]).addAll
        (List.replicate 100 ⟨0, "x"⟩)).1.add ⟨0, "x"⟩).2 = false) := by
  have h := claim_C9_additive_capacity [none] (List.replicate 100 ⟨0, "x"⟩) (by simp)
  exact ⟨by simpa using h.2.1, by rw [h.2.2 ⟨0, "x"⟩]⟩

/-- Lexicographic order on character lists by code point: the order Python
uses to compare strings with `<=`.  (Lean's own `String` order is defined by
well-founded recursion, which the kernel cannot evaluate; this structurally
recursive comparator is the same relation in computable form.) -/
def charListLe : List Char → List Char → Bool
  | [], _ => true
  | _ :: _, [] => false
  | a :: as, b :: bs =>
    if a < b then true
    else if b < a then false
    else charListLe as bs

/-- Lexicographic comparison of strings, as Python's `<=` on `str`. -/
def nameLeb (a b : String) : Bool := charListLe a.data b.data

/-- The `for layer in self.get_layers: if layer is not None: capacity += 1
else: break` loop of `SequenceLayerStore.__init__`: counts the contiguous
non-empty prefix of the registry. -/
def initCapacity : Registry → Nat
  | [] => 0
  | none :: _ => 0
  | some _ :: rest => initCapacity rest + 1

/-- `SequenceLayerStore` (`layer_store.py`, lines 328-491): the registry
snapshot, the prefix capacity computed at construction, and the applied-index
set.  The Python `BSet` (`data_structures/bset.py`, outside the verified
source) is modelled from the spec as a set of positive naturals; the store
keeps `layer.index + 1` for each applied layer because the bit set rejects 0. -/
structure SequenceLayerStore where
  get_layers : Registry
  capacity : Nat
  seq_layers : Finset Nat
  deriving DecidableEq

namespace SequenceLayerStore

/-- `SequenceLayerStore.__init__`. -/
def init (reg : Registry) : SequenceLayerStore :=
  ⟨reg, initCapacity reg, ∅⟩

/-- `SequenceLayerStore.add`: mark `layer.index + 1` applied if it was not. -/
def add (s : SequenceLayerStore) (layer : Layer) : SequenceLayerStore × Bool :=
  if layer.index + 1 ∉ s.seq_layers then
    ({ s with seq_layers := insert (layer.index + 1) s.seq_layers }, true)
  else (s, false)

/-- `SequenceLayerStore.erase`: unmark `layer.index + 1` if it was applied. -/
def erase (s : SequenceLayerStore) (layer : Layer) : SequenceLayerStore × Bool :=
  if layer.index + 1 ∈ s.seq_layers then
    ({ s with seq_layers := s.seq_layers.erase (layer.index + 1) }, true)
  else (s, false)

/-- `SequenceLayerStore.get_color`: when the applied set is non-empty, walk
indices `0 .. capacity - 1` in ascending order and apply each marked layer.
(The registry lookup is total in the loop's range because `capacity` counts
the non-empty prefix; the identity fallback is unreachable there.) -/
def colorStep {C : Type} (applyFn : Layer → C → Nat → Nat → Nat → C)
    (s : SequenceLayerStore) (timestamp x y : Nat) (color : C) (i : Nat) : C :=
  if i + 1 ∈ s.seq_layers then
    match s.get_layers.get? i with
    | some (some l) => applyFn l color timestamp x y
    | _ => color
  else color

def get_color {C : Type} (applyFn : Layer → C → Nat → Nat → Nat → C)
    (s : SequenceLayerStore) (start : C) (timestamp x y : Nat) : C :=
  if s.seq_layers = ∅ then start
  else (List.range s.capacity).foldl (colorStep applyFn s timestamp x y) start

/-- Modelled from the spec: `ArraySortedList.add` (the sorted-list ADT is
outside the verified source) keeps entries ordered by their key, here the
layer name under the lexicographic string order (`nameLeb`). -/
def insertByName (l : Layer) : List Layer → List Layer
  | [] => [l]
  | h :: t => if nameLeb l.name h.name then l :: h :: t else h :: insertByName l t

/-- One iteration of the `lexi_layers` build loop of
`SequenceLayerStore.special`: insert the layer at registry position `i` into
the name-sorted accumulator when its shifted index is marked applied. -/
def seqStep (s : SequenceLayerStore) (acc : List Layer) (i : Nat) : List Layer :=
  if i + 1 ∈ s.seq_layers then
    match s.get_layers.get? i with
    | some (some l) => insertByName l acc
    | _ => acc
  else acc

/-- The `lexi_layers` build loop of `SequenceLayerStore.special`: insert every
applied layer below `capacity` into a name-sorted list. -/
def sortedApplied (s : SequenceLayerStore) : List Layer :=
  (List.range s.capacity).foldl (seqStep s) []

/-- The median computation of `SequenceLayerStore.special`:
`len // 2 - 1` for an even count, `len // 2` for an odd one. -/
def medianIndex (n : Nat) : Nat :=
  if n % 2 = 0 then n / 2 - 1 else n / 2

/-- `SequenceLayerStore.special`: erase the applied layer whose name is the
median of the name-sorted applied layers; no-op when nothing is applied.
(A median lookup outside the sorted list — possible only in unreachable
states where every applied index lies at or beyond `capacity`, where the
Python list indexing would fault — is modelled as a no-op.) -/
def special (s : SequenceLayerStore) : SequenceLayerStore :=
  if s.seq_layers = ∅ then s
  else
    match s.sortedApplied.get? (medianIndex s.sortedApplied.length) with
    | some m => (s.erase m).1
    | none => s

end SequenceLayerStore

/-- The layer (if any) the sequence store applies at registry position `i`. -/
def seqSelect (s : SequenceLayerStore) (i : Nat) : Option Layer :=
  if i + 1 ∈ s.seq_layers then (s.get_layers.get? i).join else none

/-- The multiset of layers the sequence store currently applies: every
registered layer below `capacity` whose shifted index is marked. -/
def appliedList (s : SequenceLayerStore) : List Layer :=
  (List.range s.capacity).filterMap (seqSelect s)

/-- The lexicographic order on character lists is total. -/
theorem charListLe_total : ∀ as bs : List Char,
    charListLe as bs = true ∨ charListLe bs as = true := by
  intro as
  induction as with
  | nil => intro bs; left; rfl
  | cons a as ih =>
    intro bs
    cases bs with
    | nil => right; rfl
    | cons b bs =>
      rcases lt_trichotomy a b with hab | hab | hab
      · left; simp [charListLe, hab]
      · subst hab
        rcases ih bs with h | h
        · left; simp [charListLe, lt_irrefl, h]
        · right; simp [charListLe, lt_irrefl, h]
      · right; simp [charListLe, hab]

/-- The lexicographic order on character lists is transitive. -/
theorem charListLe_trans : ∀ as bs cs : List Char,
    charListLe as bs = true → charListLe bs cs = true → charListLe as cs = true := by
  intro as
  induction as with
  | nil => intro bs cs _ _; rfl
  | cons a as ih =>
    intro bs cs h1 h2
    cases bs with
    | nil => simp [charListLe] at h1
    | cons b bs =>
      cases cs with
      | nil => simp [charListLe] at h2
      | cons c cs =>
        by_cases hab : a < b
        · by_cases hbc : b < c
          · simp [charListLe, lt_trans hab hbc]
          · by_cases hcb : c < b
            · simp [charListLe, hbc, hcb] at h2
            · have : b = c := le_antisymm (not_lt.mp hcb) (not_lt.mp hbc)
              subst this
              simp [charListLe, hab]
        · by_cases hba : b < a
          · simp [charListLe, hab, hba] at h1
          · have : a = b := le_antisymm (not_lt.mp hba) (not_lt.mp hab)
            subst this
            simp only [charListLe, lt_irrefl, if_false] at h1
            by_cases hbc : a < c
            · simp [charListLe, hbc]
            · by_cases hcb : c < a
              · simp [charListLe, hbc, hcb] at h2
              · have : a = c := le_antisymm (not_lt.mp hcb) (not_lt.mp hbc)
                subst this
                simp only [charListLe, lt_irrefl, if_false] at h2 ⊢
                exact ih bs cs h1 h2

/-- Name order on layers, the key order `ArraySortedList` sorts by. -/
def byName (a b : Layer) : Prop := nameLeb a.name b.name = true

instance : DecidableRel byName :=
  fun a b => inferInstanceAs (Decidable (nameLeb a.name b.name = true))

instance : IsTotal Layer byName :=
  ⟨fun a b => charListLe_total a.name.data b.name.data⟩

instance : IsTrans Layer byName :=
  ⟨fun _ _ _ hab hbc => charListLe_trans _ _ _ hab hbc⟩

/-- Checks that every registered layer records its own registry position as
its `index` (the registry assigns indices in registration order). -/
def registryWFFrom : Nat → Registry → Bool
  | _, [] => true
  | i, none :: rest => registryWFFrom (i + 1) rest
  | i, some l :: rest => l.index == i && registryWFFrom (i + 1) rest

def registryWF (reg : Registry) : Bool := registryWFFrom 0 reg

namespace SequenceLayerStore

/-- `insertByName` is insertion into a sorted list under the name order. -/
theorem insertByName_eq (l : Layer) :
    ∀ xs : List Layer, insertByName l xs = List.orderedInsert byName l xs := by
  intro xs
  induction xs with
  | nil => rfl
  | cons h t ih =>
    unfold insertByName List.orderedInsert
    by_cases hle : nameLeb l.name h.name = true
    · have hb : byName l h := hle
      rw [if_pos hle, if_pos hb]
    · have hb : ¬ byName l h := hle
      rw [if_neg hle, if_neg hb, ih]

theorem perm_insertByName (l : Layer) (xs : List Layer) :
    (insertByName l xs).Perm (l :: xs) := by
  rw [insertByName_eq]
  exact List.perm_orderedInsert byName l xs

theorem sorted_insertByName (l : Layer) (xs : List Layer)
    (h : xs.Sorted byName) : (insertByName l xs).Sorted byName := by
  rw [insertByName_eq]
  exact h.orderedInsert l xs

theorem seqSelect_eq_some_iff (s : SequenceLayerStore) (i : Nat) (l : Layer) :
    seqSelect s i = some l ↔
      (i + 1 ∈ s.seq_layers ∧ s.get_layers.get? i = some (some l)) := by
  unfold seqSelect
  by_cases hmem : i + 1 ∈ s.seq_layers
  · rw [if_pos hmem]
    cases hg : s.get_layers.get? i with
    | none => simp
    | some o => cases o <;> simp [Option.join, hmem]
  · simp [hmem]

theorem seqStep_of_select_none (s : SequenceLayerStore) (acc : List Layer)
    (i : Nat) (h : seqSelect s i = none) : seqStep s acc i = acc := by
  unfold seqSelect at h
  unfold seqStep
  by_cases hmem : i + 1 ∈ s.seq_layers
  · rw [if_pos hmem] at h ⊢
    cases hg : s.get_layers.get? i with
    | none => rfl
    | some o =>
      cases o with
      | none => rfl
      | some l => rw [hg] at h; simp [Option.join] at h
  · rw [if_neg hmem]

theorem seqStep_of_select_some (s : SequenceLayerStore) (acc : List Layer)
    (i : Nat) (l : Layer) (h : seqSelect s i = some l) :
    seqStep s acc i = insertByName l acc := by
  obtain ⟨hmem, hg⟩ := (seqSelect_eq_some_iff s i l).mp h
  unfold seqStep
  rw [if_pos hmem, hg]

/-- The sorted build loop accumulates exactly (a permutation of) the selected
layers, in front of whatever was already accumulated. -/
theorem foldl_seqStep_perm (s : SequenceLayerStore) :
    ∀ (idxs : List Nat) (acc : List Layer),
      (List.foldl (seqStep s) acc idxs).Perm (acc ++ idxs.filterMap (seqSelect s)) := by
  intro idxs
  induction idxs with
  | nil => intro acc; simp
  | cons i is ih =>
    intro acc
    simp only [List.foldl_cons, List.filterMap_cons]
    cases hsel : seqSelect s i with
    | none =>
      rw [seqStep_of_select_none s acc i hsel]
      exact ih acc
    | some l =>
      rw [seqStep_of_select_some s acc i l hsel]
      exact (ih _).trans
        (((perm_insertByName l acc).append_right _).trans List.perm_middle.symm)

/-- The sorted build loop preserves sortedness of the accumulator. -/
theorem foldl_seqStep_sorted (s : SequenceLayerStore) :
    ∀ (idxs : List Nat) (acc : List Layer), acc.Sorted byName →
      (List.foldl (seqStep s) acc idxs).Sorted byName := by
  intro idxs
  induction idxs with
  | nil => intro acc h; simpa using h
  | cons i is ih =>
    intro acc h
    simp only [List.foldl_cons]
    cases hsel : seqSelect s i with
    | none =>
      rw [seqStep_of_select_none s acc i hsel]
      exact ih acc h
    | some l =>
      rw [seqStep_of_select_some s acc i l hsel]
      exact ih _ (sorted_insertByName l acc h)

theorem sortedApplied_perm (s : SequenceLayerStore) :
    s.sortedApplied.Perm (appliedList s) := by
  simpa [sortedApplied, appliedList] using
    foldl_seqStep_perm s (List.range s.capacity) []

theorem sortedApplied_sorted (s : SequenceLayerStore) :
    s.sortedApplied.Sorted byName :=
  foldl_seqStep_sorted s (List.range s.capacity) [] (by simp)

end SequenceLayerStore

theorem registryWFFrom_spec :
    ∀ (reg : Registry) (n i : Nat) (l : Layer), registryWFFrom n reg = true →
      reg.get? i = some (some l) → l.index = n + i := by
  intro reg
  induction reg with
  | nil => intro n i l _ hg; simp [List.get?] at hg
  | cons o rest ih =>
    intro n i l hwf hg
    cases o with
    | none =>
      cases i with
      | zero => simp [List.get?] at hg
      | succ j =>
        simp only [List.get?] at hg
        have := ih (n + 1) j l (by simpa [registryWFFrom] using hwf) hg
        omega
    | some l0 =>
      simp only [registryWFFrom, Bool.and_eq_true, beq_iff_eq] at hwf
      cases i with
      | zero =>
        simp only [List.get?, Option.some.injEq] at hg
        subst hg
        omega
      | succ j =>
        simp only [List.get?] at hg
        have := ih (n + 1) j l hwf.2 hg
        omega

theorem registryWF_spec (reg : Registry) (h : registryWF reg = true)
    (i : Nat) (l : Layer) (hg : reg.get? i = some (some l)) : l.index = i := by
  simpa using registryWFFrom_spec reg 0 i l h hg

theorem medianIndex_lt (n : Nat) (h : n ≠ 0) :
    SequenceLayerStore.medianIndex n < n := by
  unfold SequenceLayerStore.medianIndex
  split <;> omega

/-- The layer registry of the spec's concrete sequence-store scenario:
`alpha`, `beta`, `gamma` registered in that order. -/
def alphaBetaGammaReg : Registry :=
  [some ⟨0, "alpha"⟩, some ⟨1, "beta"⟩, some ⟨2, "gamma"⟩]

/-- Claim C4: when at least one layer is applied, `special` erases exactly one
layer — the one at position `count // 2 - 1` (even count) or `count // 2`
(odd count) of the name-sorted applied sequence, i.e. the median by name —
and when nothing is applied `special` is a no-op.  Conjuncts: (1) empty set
is a no-op; (2) the built sequence really is a name-sorted permutation of the
applied layers; (3) on a well-indexed registry with a non-empty applied
sequence, the median element is erased, exactly one entry leaves the set;
(4) the concrete `alpha`/`beta`/`gamma` case removes `beta` (bit 2). -/
theorem claim_C4_sequence_special_median :
    (∀ s : SequenceLayerStore, s.seq_layers = ∅ → s.special = s) ∧
    (∀ s : SequenceLayerStore,
      s.sortedApplied.Sorted byName ∧ s.sortedApplied.Perm (appliedList s)) ∧
    (∀ s : SequenceLayerStore, registryWF s.get_layers = true →
      s.sortedApplied ≠ [] →
      ∃ m : Layer,
        s.sortedApplied.get?
          (SequenceLayerStore.medianIndex s.sortedApplied.length) = some m ∧
        m.index + 1 ∈ s.seq_layers ∧
        s.special = { s with seq_layers := s.seq_layers.erase (m.index + 1) } ∧
        s.special.seq_layers.card + 1 = s.seq_layers.card) ∧
    (SequenceLayerStore.special ⟨alphaBetaGammaReg, 3, {1, 2, 3}⟩ =
      ⟨alphaBetaGammaReg, 3, {1, 3}⟩) := by
  refine ⟨?_, ?_, ?_, by decide⟩
  · intro s h
    unfold SequenceLayerStore.special
    rw [if_pos h]
  · intro s
    exact ⟨SequenceLayerStore.sortedApplied_sorted s,
      SequenceLayerStore.sortedApplied_perm s⟩
  · intro s hwf hne
    have hlen : s.sortedApplied.length ≠ 0 := by
      simpa [List.length_eq_zero] using hne
    have hmlt := medianIndex_lt _ hlen
    obtain ⟨m, hm⟩ : ∃ m, s.sortedApplied.get?
        (SequenceLayerStore.medianIndex s.sortedApplied.length) = some m := by
      rw [List.get?_eq_get hmlt]
      exact ⟨_, rfl⟩
    have hmem_sorted : m ∈ s.sortedApplied := List.get?_mem hm
    have hmem_app : m ∈ appliedList s :=
      (SequenceLayerStore.sortedApplied_perm s).subset hmem_sorted
    obtain ⟨i, _, hsel⟩ := List.mem_filterMap.mp hmem_app
    obtain ⟨hbit, hget⟩ := (SequenceLayerStore.seqSelect_eq_some_iff s i m).mp hsel
    have hidx : m.index = i := registryWF_spec _ hwf i m hget
    have hbit' : m.index + 1 ∈ s.seq_layers := by rw [hidx]; exact hbit
    have hne_set : s.seq_layers ≠ ∅ := Finset.ne_empty_of_mem hbit'
    have hspecial : s.special =
        { s with seq_layers := s.seq_layers.erase (m.index + 1) } := by
      unfold SequenceLayerStore.special
      rw [if_neg hne_set, hm]
      show (s.erase m).1 = _
      unfold SequenceLayerStore.erase
      rw [if_pos hbit']
    refine ⟨m, hm, hbit', hspecial, ?_⟩
    rw [hspecial]
    show (s.seq_layers.erase (m.index + 1)).card + 1 = s.seq_layers.card
    have hpos : 0 < s.seq_layers.card := Finset.card_pos.mpr ⟨_, hbit'⟩
    have := Finset.card_erase_of_mem hbit'
    omega

/-- Claim C4 witness: in the `alpha`/`beta`/`gamma` store the special call
removes exactly one applied entry (card drops from 3 to 2), and on the
freshly-initialised (empty) store `special` is a no-op. -/
theorem claim_C4_witness :
    ((SequenceLayerStore.special ⟨alphaBetaGammaReg, 3, {1, 2, 3}⟩).seq_layers.card + 1 =
      ({1, 2, 3} : Finset Nat).card) ∧
    (SequenceLayerStore.special (SequenceLayerStore.init alphaBetaGammaReg) =
      SequenceLayerStore.init alphaBetaGammaReg) := by
  obtain ⟨m, _, _, _, hcard⟩ :=
    claim_C4_sequence_special_median.2.2.1 ⟨alphaBetaGammaReg, 3, {1, 2, 3}⟩
      (by decide) (by decide)
  exact ⟨hcard, claim_C4_sequence_special_median.1 _ rfl⟩

/-- Two folds over the same list agree when the step functions agree on the
list's elements. -/
theorem foldl_congr_mem {α β : Type} (l : List α) (f g : β → α → β)
    (h : ∀ b a, a ∈ l → f b a = g b a) : ∀ b : β, l.foldl f b = l.foldl g b := by
  induction l with
  | nil => intro b; rfl
  | cons x xs ih =>
    intro b
    simp only [List.foldl_cons]
    rw [h b x (by simp)]
    exact ih (fun b a ha => h b a (by simp [ha])) _

theorem foldl_fixed {α β : Type} (l : List α) (b : β) :
    l.foldl (fun c _ => c) b = b := by
  induction l with
  | nil => rfl
  | cons x xs ih => simp only [List.foldl_cons]; exact ih

/-- Claim C10: the sequence store's capacity, fixed at construction, is the
length of the contiguous non-empty prefix of `get_layers()`, and `get_color`
never applies a layer marked at an index at or beyond that prefix — adding a
registry entry that sits after the first empty slot leaves every `get_color`
output unchanged. -/
theorem claim_C10_sequence_prefix_capacity :
    (∀ reg : Registry,
      (SequenceLayerStore.init reg).capacity = (reg.takeWhile Option.isSome).length) ∧
    (∀ (s : SequenceLayerStore) (l : Layer), s.capacity ≤ l.index →
      ∀ {C : Type} (applyFn : Layer → C → Nat → Nat → Nat → C) (start : C)
        (timestamp x y : Nat),
        SequenceLayerStore.get_color applyFn (s.add l).1 start timestamp x y =
          SequenceLayerStore.get_color applyFn s start timestamp x y) := by
  constructor
  · intro reg
    show initCapacity reg = _
    induction reg with
    | nil => rfl
    | cons o rest ih =>
      cases o with
      | none => rfl
      | some l => simp [initCapacity, List.takeWhile_cons, ih]
  · intro s l hcap C applyFn start timestamp x y
    unfold SequenceLayerStore.add
    by_cases hmem : l.index + 1 ∈ s.seq_layers
    · rw [if_neg (fun h => h hmem)]
    · rw [if_pos hmem]
      unfold SequenceLayerStore.get_color
      rw [if_neg (Finset.insert_ne_empty _ _)]
      by_cases hse : s.seq_layers = ∅
      · rw [if_pos hse]
        rw [foldl_congr_mem _ _ (fun c _ => c) ?_ start, foldl_fixed]
        intro c i hi
        unfold SequenceLayerStore.colorStep
        have hlt : i < s.capacity := List.mem_range.mp hi
        rw [if_neg]
        intro hmem2
        rcases Finset.mem_insert.mp hmem2 with heq | hin
        · omega
        · rw [hse] at hin
          exact absurd hin (Finset.not_mem_empty _)
      · rw [if_neg hse]
        apply foldl_congr_mem
        intro c i hi
        unfold SequenceLayerStore.colorStep
        have hlt : i < s.capacity := List.mem_range.mp hi
        have hiff : (i + 1 ∈ insert (l.index + 1) s.seq_layers) ↔
            (i + 1 ∈ s.seq_layers) := by
          rw [Finset.mem_insert]
          constructor
          · rintro (heq | hin)
            · omega
            · exact hin
          · exact Or.inr
        by_cases hm2 : i + 1 ∈ s.seq_layers
        · rw [if_pos (hiff.mpr hm2), if_pos hm2]
        · rw [if_neg (fun h => hm2 (hiff.mp h)), if_neg hm2]

/-- A registry with a used slot, then an empty slot, then a late entry: the
prefix capacity is 1 and the late entry (index 5) can never be applied. -/
def demoReg : Registry := [some ⟨0, "a"⟩, none, some ⟨5, "b"⟩]

/-- Claim C10 witness: on `demoReg` the construction-time capacity is 1, and
adding the layer stored after the empty slot does not change `get_color`. -/
theorem claim_C10_witness :
    ((SequenceLayerStore.init demoReg).capacity = 1) ∧
    (SequenceLayerStore.get_color (fun l c _ _ _ => c + l.index)
        ((SequenceLayerStore.init demoReg).add ⟨5, "b"⟩).1 0 0 0 0 =
      SequenceLayerStore.get_color (fun l c _ _ _ => c + l.index)
        (SequenceLayerStore.init demoReg) 0 0 0 0) := by
  constructor
  · rw [claim_C10_sequence_prefix_capacity.1 demoReg]
    decide
  · exact claim_C10_sequence_prefix_capacity.2 (SequenceLayerStore.init demoReg)
      ⟨5, "b"⟩ (by decide) (fun l c _ _ _ => c + l.index) 0 0 0 0

/-- `ReplayTracker` (`replay.py`, lines 8-90): a bounded queue of
`(action, is_undo)` pairs plus the `start` flag.  The grid-mutating action
methods (`undo_apply`/`redo_apply` of the external `PaintAction`) are passed
in as function parameters. -/
structure ReplayTracker (A : Type) where
  capacity : Nat
  actions : CircularQueue (A × Bool)
  start : Bool

namespace ReplayTracker

variable {A G : Type}

/-- `ReplayTracker.__init__`: `capacity = 10000`, empty queue, `start = False`. -/
def init (A : Type) : ReplayTracker A := ⟨10000, ⟨10000, []⟩, false⟩

/-- `ReplayTracker.start_replay`. -/
def start_replay (s : ReplayTracker A) : ReplayTracker A := { s with start := true }

/-- `ReplayTracker.add_action`: appends unconditionally (no capacity check in
this method; the queue ADT itself drops the entry when full). -/
def add_action (s : ReplayTracker A) (action : A) (is_undo : Bool) : ReplayTracker A :=
  { s with actions := s.actions.append (action, is_undo) }

/-- `ReplayTracker.play_next_action`: true when inactive; true (and stop) when
drained; otherwise serve one pair, apply it to the grid, return false.
(The final `none` branch is unreachable: the emptiness test has just failed.) -/
def play_next_action (undoApply redoApply : A → G → G)
    (s : ReplayTracker A) (grid : G) : ReplayTracker A × G × Bool :=
  if s.start = false then (s, grid, true)
  else if s.actions.is_empty then ({ s with start := false }, grid, true)
  else
    match s.actions.serve with
    | some ((action, is_undo), rest) =>
      ({ s with actions := rest },
        (if is_undo then undoApply action grid else redoApply action grid), false)
    | none => (s, grid, true)

end ReplayTracker

/-- The `__main__` scenario of `replay.py`: add `a1`, `a2`, then `a2` as an
undo entry, start the replay, and play four times; returns the four booleans
and the final grid. -/
def replayScenario {A G : Type} (undoApply redoApply : A → G → G)
    (a1 a2 : A) (g : G) : Bool × Bool × Bool × Bool × G :=
  let r := ReplayTracker.start_replay
    ((((ReplayTracker.init A).add_action a1 false).add_action a2 false).add_action a2 true)
  let p1 := ReplayTracker.play_next_action undoApply redoApply r g
  let p2 := ReplayTracker.play_next_action undoApply redoApply p1.1 p1.2.1
  let p3 := ReplayTracker.play_next_action undoApply redoApply p2.1 p2.2.1
  let p4 := ReplayTracker.play_next_action undoApply redoApply p3.1 p3.2.1
  (p1.2.2, p2.2.2, p3.2.2, p4.2.2, p4.2.1)

/-- Claim C2: `ReplayTracker.add_action` on a queue already holding 10000
entries (its fixed capacity) drops the entry and leaves the tracker
unchanged.  (The `CircularQueue` ADT is outside the verified source; per the
spec its capacity exhaustion is a silent, non-throwing no-op, which is what
makes the unguarded `append` in `add_action` safe.) -/
theorem claim_C2_replay_add_action_full_noop {A : Type} (s : ReplayTracker A)
    (a : A) (u : Bool) (hcap : s.actions.max_capacity = 10000)
    (hfull : s.actions.items.length = 10000) :
    s.add_action a u = s := by
  obtain ⟨cap, ⟨qcap, items⟩, st⟩ := s
  have h1 : qcap = 10000 := hcap
  have h2 : items.length = 10000 := hfull
  unfold ReplayTracker.add_action CircularQueue.append
  rw [if_neg (by omega)]

/-- Claim C2 witness: a concrete full tracker (10000 queued entries) is left
unchanged by `add_action`. -/
theorem claim_C2_witness :
    ReplayTracker.add_action
        ⟨10000, ⟨10000, List.replicate 10000 ((), false)⟩, false⟩ () true =
      (⟨10000, ⟨10000, List.replicate 10000 ((), false)⟩, false⟩ : ReplayTracker Unit) :=
  claim_C2_replay_add_action_full_noop _ () true rfl
    (by show (List.replicate 10000 ((), false)).length = 10000
        simp only [List.length_replicate])

/-- Claim C5: `play_next_action` returns true and consumes nothing when
`replaying` is off; returns true, flips `replaying` off and consumes nothing
when the queue is drained; otherwise consumes exactly one `(action, is_undo)`
pair, applies `undo_apply` when flagged and `redo_apply` otherwise, and
returns false.  The recorded three-action scenario therefore plays
`False, False, False` then `True`, ending on
`undo_apply(a2, redo_apply(a2, redo_apply(a1, g)))`. -/
theorem claim_C5_play_next_action {A G : Type} (undoApply redoApply : A → G → G) :
    (∀ (s : ReplayTracker A) (g : G), s.start = false →
      ReplayTracker.play_next_action undoApply redoApply s g = (s, g, true)) ∧
    (∀ (s : ReplayTracker A) (g : G), s.start = true → s.actions.items = [] →
      ReplayTracker.play_next_action undoApply redoApply s g =
        ({ s with start := false }, g, true)) ∧
    (∀ (s : ReplayTracker A) (g : G) (a : A) (u : Bool) (rest : List (A × Bool)),
      s.start = true → s.actions.items = (a, u) :: rest →
      ReplayTracker.play_next_action undoApply redoApply s g =
        ({ s with actions := ⟨s.actions.max_capacity, rest⟩ },
          (if u then undoApply a g else redoApply a g), false)) ∧
    (∀ (a1 a2 : A) (g : G),
      replayScenario undoApply redoApply a1 a2 g =
        (false, false, false, true, undoApply a2 (redoApply a2 (redoApply a1 g)))) := by
  refine ⟨?_, ?_, ?_, ?_⟩
  · intro s g h
    unfold ReplayTracker.play_next_action
    rw [if_pos h]
  · intro s g h1 h2
    unfold ReplayTracker.play_next_action
    rw [if_neg (by simp [h1]), if_pos (by simp [CircularQueue.is_empty, h2])]
  · intro s g a u rest h1 h2
    unfold ReplayTracker.play_next_action CircularQueue.serve
    rw [if_neg (by simp [h1]), if_neg (by simp [CircularQueue.is_empty, h2]), h2]
  · intro a1 a2 g
    rfl

/-- Claim C5 witness: on a fresh (inactive) tracker, `play_next_action` is a
no-op returning true. -/
theorem claim_C5_witness :
    ReplayTracker.play_next_action (fun (_ : Unit) (g : Unit) => g)
        (fun _ g => g) (ReplayTracker.init Unit) () =
      (ReplayTracker.init Unit, (), true) :=
  (claim_C5_play_next_action _ _).1 (ReplayTracker.init Unit) () rfl

/-- `Grid.DEFAULT_BRUSH_SIZE` (`grid.py`, line 17). -/
def DEFAULT_BRUSH_SIZE : Nat := 2

/-- `Grid.MAX_BRUSH` (`grid.py`, line 18). -/
def MAX_BRUSH : Nat := 5

/-- `Grid.MIN_BRUSH` (`grid.py`, line 19). -/
def MIN_BRUSH : Nat := 0

/-- `Grid` (`grid.py`): the claims verified here concern only `brush_size`;
the cell array of layer stores and the draw-style validation are untouched by
the brush-size methods and omitted from this state. -/
structure Grid where
  brush_size : Nat
  deriving DecidableEq

namespace Grid

/-- `Grid.__init__` line 52: `self.brush_size = Grid.DEFAULT_BRUSH_SIZE`. -/
def init : Grid := ⟨DEFAULT_BRUSH_SIZE⟩

/-- `Grid.increase_brush_size`: `if self.brush_size < Grid.MAX_BRUSH: += 1`. -/
def increase_brush_size (g : Grid) : Grid :=
  if g.brush_size < MAX_BRUSH then ⟨g.brush_size + 1⟩ else g

/-- `Grid.decrease_brush_size`: `if self.brush_size > Grid.MIN_BRUSH: -= 1`. -/
def decrease_brush_size (g : Grid) : Grid :=
  if g.brush_size > MIN_BRUSH then ⟨g.brush_size - 1⟩ else g

end Grid

inductive BrushOp where
  | inc
  | dec
  deriving DecidableEq

def Grid.stepBrush (g : Grid) : BrushOp → Grid
  | .inc => g.increase_brush_size
  | .dec => g.decrease_brush_size

def Grid.runBrush (g : Grid) (ops : List BrushOp) : Grid :=
  ops.foldl Grid.stepBrush g

theorem stepBrush_le (g : Grid) (op : BrushOp)
    (h : g.brush_size ≤ MAX_BRUSH) : (g.stepBrush op).brush_size ≤ MAX_BRUSH := by
  cases op <;>
    simp only [Grid.stepBrush, Grid.increase_brush_size, Grid.decrease_brush_size] <;>
    split <;> simp_all [MAX_BRUSH, MIN_BRUSH] <;> omega

theorem runBrush_le (ops : List BrushOp) :
    ∀ g : Grid, g.brush_size ≤ MAX_BRUSH →
      (g.runBrush ops).brush_size ≤ MAX_BRUSH := by
  induction ops with
  | nil => intro g h; exact h
  | cons op rest ih =>
    intro g h
    exact ih _ (stepBrush_le g op h)

/-- Claim C7: `brush_size` starts at the default 2 and stays within `[0, 5]`
under every sequence of increase/decrease calls; `increase_brush_size` adds 1
unless the size is already 5 (then no-op), and `decrease_brush_size`
subtracts 1 unless the size is already 0 (then no-op). -/
theorem claim_C7_brush_size_bounds :
    (Grid.init.brush_size = 2) ∧
    (∀ ops : List BrushOp, MIN_BRUSH ≤ (Grid.init.runBrush ops).brush_size ∧
      (Grid.init.runBrush ops).brush_size ≤ MAX_BRUSH) ∧
    (∀ g : Grid, g.brush_size < 5 → g.increase_brush_size = ⟨g.brush_size + 1⟩) ∧
    (∀ g : Grid, g.brush_size = 5 → g.increase_brush_size = g) ∧
    (∀ g : Grid, 0 < g.brush_size → g.decrease_brush_size = ⟨g.brush_size - 1⟩) ∧
    (∀ g : Grid, g.brush_size = 0 → g.decrease_brush_size = g) := by
  refine ⟨rfl, ?_, ?_, ?_, ?_, ?_⟩
  · intro ops
    exact ⟨Nat.zero_le _, runBrush_le ops Grid.init (by decide)⟩
  · intro g h
    unfold Grid.increase_brush_size
    rw [if_pos (by simpa [MAX_BRUSH] using h)]
  · intro g h
    unfold Grid.increase_brush_size
    rw [if_neg (by simp [MAX_BRUSH, h])]
  · intro g h
    unfold Grid.decrease_brush_size
    rw [if_pos (by simpa [MIN_BRUSH] using h)]
  · intro g h
    unfold Grid.decrease_brush_size
    rw [if_neg (by simp [MIN_BRUSH, h])]

/-- Claim C7 witness: concrete brush behaviour — 3 increments to 4, 5 is a
fixed point of increase, 0 of decrease, and a sample run stays in bounds. -/
theorem claim_C7_witness :
    (Grid.increase_brush_size ⟨3⟩ = ⟨4⟩) ∧
    (Grid.increase_brush_size ⟨5⟩ = ⟨5⟩) ∧
    (Grid.decrease_brush_size ⟨0⟩ = ⟨0⟩) ∧
    ((Grid.init.runBrush [.inc, .inc, .inc, .inc, .inc]).brush_size ≤ MAX_BRUSH) :=
  ⟨claim_C7_brush_size_bounds.2.2.1 ⟨3⟩ (by decide),
    claim_C7_brush_size_bounds.2.2.2.1 ⟨5⟩ rfl,
    claim_C7_brush_size_bounds.2.2.2.2.2 ⟨0⟩ rfl,
    (claim_C7_brush_size_bounds.2.1 [.inc, .inc, .inc, .inc, .inc]).2⟩

/-- `UndoTracker` (`undo.py`, lines 8-133): two bounded stacks of capacity
10000.  The grid-mutating action methods (`undo_apply`/`redo_apply` of the
external `PaintAction`) are passed in as function parameters. -/
structure UndoTracker (A : Type) where
  capacity : Nat
  actions : ArrayStack A
  undone_actions : ArrayStack A

namespace UndoTracker

variable {A G : Type}

/-- `UndoTracker.__init__`: `capacity = 10000`, two empty stacks. -/
def init (A : Type) : UndoTracker A := ⟨10000, ⟨10000, []⟩, ⟨10000, []⟩⟩

/-- `UndoTracker.add_action`: `if not self.actions.is_full(): push`. -/
def add_action (s : UndoTracker A) (action : A) : UndoTracker A :=
  if s.actions.is_full then s else { s with actions := s.actions.push action }

/-- `UndoTracker.undo`: pop `actions` (no-op returning `None` when empty),
apply the inverse to the grid, push onto `undone_actions` (no capacity
check). -/
def undo (undoApply : A → G → G) (s : UndoTracker A) (grid : G) :
    UndoTracker A × G × Option A :=
  match s.actions.pop with
  | none => (s, grid, none)
  | some (a, rest) =>
    ({ s with actions := rest, undone_actions := s.undone_actions.push a },
      undoApply a grid, some a)

/-- `UndoTracker.redo`: pop `undone_actions` (no-op returning `None` when
empty), apply the forward effect, push back onto `actions` (no capacity
check). -/
def redo (redoApply : A → G → G) (s : UndoTracker A) (grid : G) :
    UndoTracker A × G × Option A :=
  match s.undone_actions.pop with
  | none => (s, grid, none)
  | some (a, rest) =>
    ({ s with undone_actions := rest, actions := s.actions.push a },
      redoApply a grid, some a)

/-- `UndoTracker.reset_redo`: clear `undone_actions`. -/
def reset_redo (s : UndoTracker A) : UndoTracker A :=
  { s with undone_actions := s.undone_actions.clear }

end UndoTracker

/-- One call in a client session against an `UndoTracker`. -/
inductive TrackerOp (A : Type) where
  | add (a : A)
  | undo
  | redo
  | reset
  deriving DecidableEq

def stepOp {A G : Type} (undoApply redoApply : A → G → G)
    (sg : UndoTracker A × G) : TrackerOp A → UndoTracker A × G
  | .add a => (sg.1.add_action a, sg.2)
  | .undo =>
    let r := UndoTracker.undo undoApply sg.1 sg.2
    (r.1, r.2.1)
  | .redo =>
    let r := UndoTracker.redo redoApply sg.1 sg.2
    (r.1, r.2.1)
  | .reset => (sg.1.reset_redo, sg.2)

def runOps {A G : Type} (undoApply redoApply : A → G → G)
    (sg : UndoTracker A × G) (ops : List (TrackerOp A)) : UndoTracker A × G :=
  ops.foldl (stepOp undoApply redoApply) sg

/-- Whether executing `op` from this tracker state performs a stack push whose
target stack is already full: `undo` pushes onto `undone_actions` whenever
`actions` is non-empty, `redo` pushes onto `actions` whenever
`undone_actions` is non-empty, and `add` / `reset_redo` check capacity or do
not push. -/
def opPushesFull {A : Type} (s : UndoTracker A) : TrackerOp A → Bool
  | .undo => !s.actions.is_empty && s.undone_actions.is_full
  | .redo => !s.undone_actions.is_empty && s.actions.is_full
  | _ => false

/-- True when no step of the run pushes onto a full stack. -/
def overflowFreeRun {A G : Type} (undoApply redoApply : A → G → G) :
    UndoTracker A × G → List (TrackerOp A) → Bool
  | _, [] => true
  | sg, op :: rest =>
    !opPushesFull sg.1 op &&
      overflowFreeRun undoApply redoApply (stepOp undoApply redoApply sg op) rest

/-- True when every `add_action` of the run happens while the redo stack is
empty — the usage discipline in which `reset_redo` invalidates the redo
history before new actions arrive. -/
def disciplineOk {A G : Type} (undoApply redoApply : A → G → G) :
    UndoTracker A × G → List (TrackerOp A) → Bool
  | _, [] => true
  | sg, op :: rest =>
    (match op with
      | .add _ => sg.1.undone_actions.is_empty
      | _ => true) &&
      disciplineOk undoApply redoApply (stepOp undoApply redoApply sg op) rest

/-- 10000 adds fill the done stack, one undo moves an entry across, one more
add refills the done stack, and the closing redo then pushes onto the full
done stack. -/
def overflowOps : List (TrackerOp Unit) :=
  List.replicate 10000 (TrackerOp.add ()) ++
    [TrackerOp.undo, TrackerOp.add (), TrackerOp.redo]

theorem run_adds {A G : Type} (undoApply redoApply : A → G → G) (a : A) :
    ∀ (n cap dcap ucap : Nat) (ditems uitems : List A) (g : G),
      ditems.length + n ≤ dcap →
      runOps undoApply redoApply (⟨cap, ⟨dcap, ditems⟩, ⟨ucap, uitems⟩⟩, g)
          (List.replicate n (TrackerOp.add a)) =
        (⟨cap, ⟨dcap, List.replicate n a ++ ditems⟩, ⟨ucap, uitems⟩⟩, g) := by
  intro n
  induction n with
  | zero =>
    intro cap dcap ucap ditems uitems g _
    simp [runOps]
  | succ n ih =>
    intro cap dcap ucap ditems uitems g h
    have hlt : ditems.length < dcap := by omega
    have hstep : stepOp undoApply redoApply
        (⟨cap, ⟨dcap, ditems⟩, ⟨ucap, uitems⟩⟩, g) (TrackerOp.add a) =
        (⟨cap, ⟨dcap, a :: ditems⟩, ⟨ucap, uitems⟩⟩, g) := by
      simp only [stepOp, UndoTracker.add_action, ArrayStack.is_full, ArrayStack.push]
      rw [if_neg (by simp; omega), if_pos hlt]
    have hops : List.replicate (n + 1) (TrackerOp.add a) =
        TrackerOp.add a :: List.replicate n (TrackerOp.add a) := List.replicate_succ _ _
    rw [hops]
    show runOps undoApply redoApply _ _ = _
    unfold runOps
    rw [List.foldl_cons]
    have := ih cap dcap ucap (a :: ditems) uitems g (by simp; omega)
    unfold runOps at this
    rw [hstep, this]
    have hflip : List.replicate n a ++ (a :: ditems) =
        List.replicate (n + 1) a ++ ditems := by
      rw [List.replicate_succ']
      simp
    rw [hflip]

theorem overflowFree_adds {A G : Type} (undoApply redoApply : A → G → G) (a : A) :
    ∀ (n : Nat) (sg : UndoTracker A × G) (rest : List (TrackerOp A)),
      overflowFreeRun undoApply redoApply sg
          (List.replicate n (TrackerOp.add a) ++ rest) =
        overflowFreeRun undoApply redoApply
          (runOps undoApply redoApply sg (List.replicate n (TrackerOp.add a))) rest := by
  intro n
  induction n with
  | zero => intro sg rest; simp [runOps]
  | succ n ih =>
    intro sg rest
    rw [List.replicate_succ, List.cons_append]
    show (!opPushesFull sg.1 (TrackerOp.add a) && _) = _
    have hguard : opPushesFull sg.1 (TrackerOp.add a) = false := rfl
    rw [hguard, ih]
    simp only [Bool.not_false, Bool.true_and]
    rfl

theorem runOps_append {A G : Type} (undoApply redoApply : A → G → G)
    (sg : UndoTracker A × G) (xs ys : List (TrackerOp A)) :
    runOps undoApply redoApply sg (xs ++ ys) =
      runOps undoApply redoApply (runOps undoApply redoApply sg xs) ys := by
  unfold runOps
  rw [List.foldl_append]

theorem overflow_tail (l : List Unit) (hl : l.length = 9999) :
    overflowFreeRun (fun (_ : Unit) (g : Unit) => g) (fun _ g => g)
      ((⟨10000, ⟨10000, () :: l⟩, ⟨10000, []⟩⟩ : UndoTracker Unit), ())
      [TrackerOp.undo, TrackerOp.add (), TrackerOp.redo] = false := by
  simp [overflowFreeRun, opPushesFull, stepOp, UndoTracker.undo, UndoTracker.redo,
    UndoTracker.add_action, ArrayStack.pop, ArrayStack.push, ArrayStack.is_full,
    ArrayStack.is_empty, hl]

/-- Claim C3 counterexample: the run `add x 10000 times; undo; add; redo` is
reachable through the public interface alone, and its final `redo` pops the
non-empty redo stack and pushes onto the `done` stack while that stack is
full: the `UndoTracker` does attempt a push onto a full stack. -/
theorem claim_C3_counterexample :
    overflowFreeRun (fun (_ : Unit) (g : Unit) => g) (fun _ g => g)
      (UndoTracker.init Unit, ()) overflowOps = false := by
  unfold overflowOps
  rw [overflowFree_adds]
  rw [show (UndoTracker.init Unit, ()) =
    ((⟨10000, ⟨10000, ([] : List Unit)⟩, ⟨10000, []⟩⟩ : UndoTracker Unit), ()) from rfl]
  rw [run_adds _ _ () 10000 10000 10000 10000 [] [] () (by simp)]
  rw [show List.replicate 10000 () ++ ([] : List Unit) =
    () :: List.replicate 9999 () from by
      rw [List.append_nil, show (10000 : Nat) = 9999 + 1 from rfl, List.replicate_succ]]
  exact overflow_tail _ (by simp only [List.length_replicate])

/-- Under the reset-before-add discipline (every `add_action` happens while
the redo stack is empty), the two stack occupancies always sum to at most
10000, so the unguarded pushes inside `undo` and `redo` never meet a full
stack. -/
theorem discipline_overflowFree {A G : Type} (undoApply redoApply : A → G → G) :
    ∀ (ops : List (TrackerOp A)) (s : UndoTracker A) (g : G),
      s.actions.max_capacity = 10000 →
      s.undone_actions.max_capacity = 10000 →
      s.actions.items.length + s.undone_actions.items.length ≤ 10000 →
      disciplineOk undoApply redoApply (s, g) ops = true →
      overflowFreeRun undoApply redoApply (s, g) ops = true := by
  intro ops
  induction ops with
  | nil => intro s g _ _ _ _; rfl
  | cons op rest ih =>
    intro s g hdc huc hsum hdisc
    obtain ⟨cap, ⟨dcap, ditems⟩, ⟨ucap, uitems⟩⟩ := s
    have hdc' : dcap = 10000 := hdc
    have huc' : ucap = 10000 := huc
    have hsum' : ditems.length + uitems.length ≤ 10000 := hsum
    subst hdc' huc'
    simp only [disciplineOk, Bool.and_eq_true] at hdisc
    obtain ⟨hguard, hrest⟩ := hdisc
    simp only [overflowFreeRun, Bool.and_eq_true]
    cases op with
    | add a =>
      have hu : uitems = [] := by
        simpa [ArrayStack.is_empty] using hguard
      subst hu
      refine ⟨rfl, ?_⟩
      by_cases hfull : ditems.length < 10000
      · have hstep : stepOp undoApply redoApply
            (⟨cap, ⟨10000, ditems⟩, ⟨10000, []⟩⟩, g) (TrackerOp.add a) =
            (⟨cap, ⟨10000, a :: ditems⟩, ⟨10000, []⟩⟩, g) := by
          simp only [stepOp, UndoTracker.add_action, ArrayStack.is_full, ArrayStack.push]
          rw [if_neg (by simp; omega), if_pos hfull]
        rw [hstep] at hrest ⊢
        exact ih _ _ rfl rfl (by simp; omega) hrest
      · have hstep : stepOp undoApply redoApply
            (⟨cap, ⟨10000, ditems⟩, ⟨10000, []⟩⟩, g) (TrackerOp.add a) =
            (⟨cap, ⟨10000, ditems⟩, ⟨10000, []⟩⟩, g) := by
          simp only [stepOp, UndoTracker.add_action, ArrayStack.is_full]
          rw [if_pos (by simp; omega)]
        rw [hstep] at hrest ⊢
        exact ih _ _ rfl rfl (by simp at hsum' ⊢; omega) hrest
    | undo =>
      cases ditems with
      | nil =>
        have hstep : stepOp undoApply redoApply
            (⟨cap, ⟨10000, []⟩, ⟨10000, uitems⟩⟩, g) TrackerOp.undo =
            (⟨cap, ⟨10000, []⟩, ⟨10000, uitems⟩⟩, g) := by
          simp [stepOp, UndoTracker.undo, ArrayStack.pop]
        refine ⟨rfl, ?_⟩
        rw [hstep] at hrest ⊢
        exact ih _ _ rfl rfl hsum' hrest
      | cons d ds =>
        have hufull : uitems.length < 10000 := by
          simp only [List.length_cons] at hsum'
          omega
        have hstep : stepOp undoApply redoApply
            (⟨cap, ⟨10000, d :: ds⟩, ⟨10000, uitems⟩⟩, g) TrackerOp.undo =
            (⟨cap, ⟨10000, ds⟩, ⟨10000, d :: uitems⟩⟩, undoApply d g) := by
          simp only [stepOp, UndoTracker.undo, ArrayStack.pop, ArrayStack.push]
          rw [if_pos hufull]
        refine ⟨?_, ?_⟩
        · simp [opPushesFull, ArrayStack.is_empty, ArrayStack.is_full]
          omega
        · rw [hstep] at hrest ⊢
          exact ih _ _ rfl rfl (by simp at hsum' ⊢; omega) hrest
    | redo =>
      cases uitems with
      | nil =>
        have hstep : stepOp undoApply redoApply
            (⟨cap, ⟨10000, ditems⟩, ⟨10000, []⟩⟩, g) TrackerOp.redo =
            (⟨cap, ⟨10000, ditems⟩, ⟨10000, []⟩⟩, g) := by
          simp [stepOp, UndoTracker.redo, ArrayStack.pop]
        refine ⟨rfl, ?_⟩
        rw [hstep] at hrest ⊢
        exact ih _ _ rfl rfl (by simp at hsum' ⊢; omega) hrest
      | cons u us =>
        have hdfull : ditems.length < 10000 := by
          simp only [List.length_cons] at hsum'
          omega
        have hstep : stepOp undoApply redoApply
            (⟨cap, ⟨10000, ditems⟩, ⟨10000, u :: us⟩⟩, g) TrackerOp.redo =
            (⟨cap, ⟨10000, u :: ditems⟩, ⟨10000, us⟩⟩, redoApply u g) := by
          simp only [stepOp, UndoTracker.redo, ArrayStack.pop, ArrayStack.push]
          rw [if_pos hdfull]
        refine ⟨?_, ?_⟩
        · simp [opPushesFull, ArrayStack.is_empty, ArrayStack.is_full]
          omega
        · rw [hstep] at hrest ⊢
          exact ih _ _ rfl rfl (by simp at hsum' ⊢; omega) hrest
    | reset =>
      have hstep : stepOp undoApply redoApply
          (⟨cap, ⟨10000, ditems⟩, ⟨10000, uitems⟩⟩, g) TrackerOp.reset =
          (⟨cap, ⟨10000, ditems⟩, ⟨10000, []⟩⟩, g) := by
        simp [stepOp, UndoTracker.reset_redo, ArrayStack.clear]
      refine ⟨rfl, ?_⟩
      rw [hstep] at hrest ⊢
      exact ih _ _ rfl rfl (by simp at hsum' ⊢; omega) hrest

/-- Claim C3 (amended): `add_action` silently drops once the done stack holds
10000 entries (the 10001st add is dropped and the size caps at 10000); and
the pushes inside `undo`/`redo` never target a full stack **provided** every
`add_action` happens while the redo stack is empty (the `reset_redo`
discipline the spec assigns to the caller).  Without that proviso the
counterexample run pushes onto a full stack. -/
theorem claim_C3_amended {A G : Type} (undoApply redoApply : A → G → G) :
    (∀ (s : UndoTracker A) (a : A), s.actions.is_full = true →
      s.add_action a = s) ∧
    (∀ (a : A) (g : G),
      runOps undoApply redoApply (UndoTracker.init A, g)
          (List.replicate 10001 (TrackerOp.add a)) =
        runOps undoApply redoApply (UndoTracker.init A, g)
          (List.replicate 10000 (TrackerOp.add a)) ∧
      (runOps undoApply redoApply (UndoTracker.init A, g)
          (List.replicate 10001 (TrackerOp.add a))).1.actions.items.length = 10000) ∧
    (∀ (ops : List (TrackerOp A)) (g : G),
      disciplineOk undoApply redoApply (UndoTracker.init A, g) ops = true →
      overflowFreeRun undoApply redoApply (UndoTracker.init A, g) ops = true) := by
  refine ⟨?_, ?_, ?_⟩
  · intro s a h
    unfold UndoTracker.add_action
    rw [if_pos h]
  · intro a g
    have h10000 := run_adds undoApply redoApply a 10000 10000 10000 10000 [] [] g (by simp)
    have hsplit : List.replicate 10001 (TrackerOp.add a) =
        List.replicate 10000 (TrackerOp.add a) ++ [TrackerOp.add a] := by
      rw [show (10001 : Nat) = 10000 + 1 from rfl, List.replicate_succ']
    have hinit : ((UndoTracker.init A : UndoTracker A), g) =
        ((⟨10000, ⟨10000, ([] : List A)⟩, ⟨10000, []⟩⟩ : UndoTracker A), g) := rfl
    have hlast : runOps undoApply redoApply (UndoTracker.init A, g)
        (List.replicate 10001 (TrackerOp.add a)) =
        ((⟨10000, ⟨10000, List.replicate 10000 a ++ []⟩, ⟨10000, []⟩⟩ : UndoTracker A), g) := by
      rw [hsplit, runOps_append, hinit, h10000]
      show stepOp undoApply redoApply _ (TrackerOp.add a) = _
      simp only [stepOp, UndoTracker.add_action, ArrayStack.is_full]
      rw [if_pos (by rw [List.append_nil, List.length_replicate]; rfl)]
    constructor
    · rw [hlast, hinit, h10000]
    · rw [hlast]
      simp only [List.append_nil, List.length_replicate]
  · intro ops g hd
    exact discipline_overflowFree undoApply redoApply ops (UndoTracker.init A) g
      rfl rfl (by simp [UndoTracker.init]) hd

/-- Claim C3 witness: the disciplined run `add; undo; redo` from a fresh
tracker never pushes onto a full stack. -/
theorem claim_C3_witness :
    overflowFreeRun (fun (_ : Unit) (g : Unit) => g) (fun _ g => g)
      (UndoTracker.init Unit, ())
      [TrackerOp.add (), TrackerOp.undo, TrackerOp.redo] = true :=
  (claim_C3_amended _ _).2.2 [TrackerOp.add (), TrackerOp.undo, TrackerOp.redo] ()
    (by decide)

end ColorTools
